import Mathlib

/-!
Verification development for the pebble sstable `Writer` (sstable/writer.go)
and the companion WAL record writer.

The Go code is shallowly embedded: byte slices become `List Nat`, Go `int`
and `uint64` arithmetic on sizes becomes `Nat` arithmetic (all quantities
involved are non-negative; points where Go could go negative are computed in
`Int`), injected callbacks (comparator, separator, successor, compression
codec, checksum functions) become function parameters, and stateful methods
become state-passing functions.  Components of the repository that are not
part of the sstable writer source (the block writer, the keyspan fragmenter,
the WAL log writer) are modelled from the specification; this is noted on
each such definition.
-/

set_option maxRecDepth 10000

namespace Pebble

/-- Byte strings are lists of byte values. -/
abbrev Bytes := List Nat

/-- Internal key: user key plus 64-bit trailer (seqnum in the upper 56 bits,
kind in the low 8).  `userKey = none` models a Go nil slice, which the writer
uses (together with a zero trailer) as the "no successor block" sentinel. -/
structure IKey where
  userKey : Option Bytes
  trailer : Nat
deriving Repr, DecidableEq

/-- User key bytes of an internal key (a nil user key reads as empty). -/
def IKey.uk (k : IKey) : Bytes := k.userKey.getD []

/-- InternalKey.Size: user key length plus 8 trailer bytes. -/
def IKey.size (k : IKey) : Nat := k.uk.length + 8

/-- Sequence number: trailer shifted right by 8. -/
def IKey.seqNum (k : IKey) : Nat := k.trailer / 256

/-- base.MakeTrailer: pack a sequence number and kind into a trailer. -/
def makeTrailer (seq kind : Nat) : Nat := seq * 256 + kind

/-- InternalKeyKindRangeDelete. -/
def internalKeyKindRangeDelete : Nat := 15

/-- InternalKeySeqNumMax: the largest 56-bit sequence number. -/
def internalKeySeqNumMax : Nat := 2 ^ 56 - 1

/-- InternalKeyRangeDeleteSentinel: trailer of the exclusive range-delete
sentinel key (maximum seqnum, kind RangeDelete). -/
def internalKeyRangeDeleteSentinel : Nat :=
  makeTrailer internalKeySeqNumMax internalKeyKindRangeDelete

/-- Bytewise lexicographic comparison, the shape of a Go `Compare` result:
negative, zero or positive. -/
def byteCompare : Bytes → Bytes → Int
  | [], [] => 0
  | [], _ :: _ => -1
  | _ :: _, [] => 1
  | a :: as, b :: bs => if a < b then -1 else if b < a then 1 else byteCompare as bs

/-- Modelled from the spec: uvarintLen (block.go is not under src/), the
length of the Go uvarint encoding of a value below 2^64. -/
def uvarintLen64 (v : Nat) : Nat :=
  if v < 128 then 1
  else if v < 16384 then 2
  else if v < 2097152 then 3
  else if v < 268435456 then 4
  else if v < 34359738368 then 5
  else if v < 4398046511104 then 6
  else if v < 562949953421312 then 7
  else if v < 72057594037927936 then 8
  else if v < 9223372036854775808 then 9
  else 10

/-- uvarintLen(uint32(v)): the Go callers cast to uint32 first. -/
def uvarintLen (v : Nat) : Nat := uvarintLen64 (v % 4294967296)

/-- flushDecisionOptions from writer.go. -/
structure FlushDecisionOptions where
  blockSize : Nat
  blockSizeThreshold : Nat
  sizeClassAwareThreshold : Nat
deriving Repr, DecidableEq

/-- Modelled from the spec: cache.ValueMetadataSize, the fixed cache-entry
metadata overhead added to a block's size when it is loaded into the block
cache (the cache package is outside the provided source). -/
def valueMetadataSize : Nat := 32

/-- blockTrailerLen: every block is followed by a 5-byte trailer. -/
def blockTrailerLen : Nat := 5

/-- sort.Search / slices.BinarySearch loop: smallest index in [lo, hi) at
which `f` flips to true, computed exactly as Go's binary search does.  The
fuel argument bounds the number of iterations; `hi - lo` shrinks every step,
so fuel `hi` suffices. -/
def searchLoop (f : Nat → Bool) : Nat → Nat → Nat → Nat
  | 0, lo, _ => lo
  | fuel + 1, lo, hi =>
    if lo < hi then
      let mid := (lo + hi) / 2
      if f mid then searchLoop f fuel lo mid else searchLoop f fuel (mid + 1) hi
    else lo

/-- blockSizeClass from writer.go: the smallest allocator size class that
could hold a block of the given size (`none` when the block exceeds every
hint).  Go uses slices.BinarySearch over the (sorted) hint slice. -/
def blockSizeClass (blockSize : Nat) (sizeClassHints : List Nat) : Option Nat :=
  let n := sizeClassHints.length
  let idx := searchLoop (fun i => blockSize ≤ sizeClassHints.getD i 0) n 0 n
  if idx = n then none else some (sizeClassHints.getD idx 0)

/-- shouldFlushWithoutHints from writer.go. -/
def shouldFlushWithoutHints (keyLen valueLen restartInterval estimatedBlockSize
    numEntries : Nat) (flushOptions : FlushDecisionOptions) : Bool :=
  if estimatedBlockSize ≥ flushOptions.blockSize then true
  else if estimatedBlockSize ≤ flushOptions.blockSizeThreshold then false
  else
    let newSize := estimatedBlockSize + keyLen + valueLen
    let newSize := if numEntries % restartInterval = 0 then newSize + 4 else newSize
    let newSize := newSize + 4 + uvarintLen keyLen + uvarintLen valueLen
    newSize > flushOptions.blockSize

/-- shouldFlushWithHints from writer.go.  The slack comparison is carried out
in `Int`, as Go computes it with signed ints. -/
def shouldFlushWithHints (keyLen valueLen restartInterval estimatedBlockSize
    numEntries : Nat) (flushOptions : FlushDecisionOptions)
    (sizeClassHints : List Nat) : Bool :=
  if numEntries = 0 then false
  else if sizeClassHints.isEmpty then
    shouldFlushWithoutHints keyLen valueLen restartInterval estimatedBlockSize
      numEntries flushOptions
  else
    let blockSizeWithMetadata := estimatedBlockSize + valueMetadataSize
    let newEstimatedSize := blockSizeWithMetadata + keyLen + valueLen + 18
    if blockSizeWithMetadata ≤ flushOptions.sizeClassAwareThreshold ∨
        newEstimatedSize ≤ flushOptions.blockSize then false
    else
      match blockSizeClass blockSizeWithMetadata sizeClassHints with
      | none =>
        shouldFlushWithoutHints keyLen valueLen restartInterval estimatedBlockSize
          numEntries flushOptions
      | some sizeClass =>
        let newSize := blockSizeWithMetadata + keyLen + valueLen
        let newSize := if numEntries % restartInterval = 0 then newSize + 4 else newSize
        let newSize := newSize + 4 + uvarintLen keyLen + uvarintLen valueLen
        if blockSizeWithMetadata < flushOptions.blockSize then
          match blockSizeClass newSize sizeClassHints with
          | some newSizeClass =>
            decide ((newSizeClass : Int) - newSize ≥ (sizeClass : Int) - blockSizeWithMetadata)
          | none => false
        else decide (newSize > sizeClass)

/-! Checksum and compression (compressAndChecksum, checksummer.checksum).
The CRC-32C and XXH64 algorithms and the compression codecs are injected
dependencies of the writer, so they appear here as function parameters. -/

/-- ChecksumType from the sstable package. -/
inductive ChecksumType where
  | typeNone
  | crc32c
  | xxhash
  | xxhash64
deriving Repr, DecidableEq

/-- noCompressionBlockType: the block-type byte for an uncompressed block. -/
def noCompressionBlockType : Nat := 0

/-- Result of compressBlock: a block-type byte and the compressed payload. -/
structure CompressResult where
  blockType : Nat
  data : Bytes
deriving Repr, DecidableEq

/-- Little-endian uint32 encoding (binary.LittleEndian.PutUint32). -/
def le32 (n : Nat) : Bytes :=
  [n % 256, n / 256 % 256, n / 65536 % 256, n / 16777216 % 256]

/-- checksummer.checksum from writer.go: CRC-32C of block followed by the
type byte, or the low 32 bits of XXH64 of the same bytes.  `none` models the
panic on an unsupported checksum type.  `crcFn`/`xxhFn` are the injected hash
functions; their uint32/uint64 ranges are modelled by reducing mod 2^32. -/
def checksummerChecksum (crcFn xxhFn : Bytes → Nat) (checksumType : ChecksumType)
    (block blockType : Bytes) : Option Nat :=
  match checksumType with
  | ChecksumType.crc32c => some (crcFn (block ++ blockType) % 4294967296)
  | ChecksumType.xxhash64 => some (xxhFn (block ++ blockType) % 4294967296)
  | _ => none

/-- compressAndChecksum from writer.go: compress the buffer, discarding the
result unless it is at least 12.5% smaller; stamp the block-type byte and the
little-endian checksum into the 5-byte trailer.  Returns the block bytes to
be written and the trailer, or `none` on an unsupported checksum type. -/
def compressAndChecksum (compressFn : Bytes → CompressResult)
    (crcFn xxhFn : Bytes → Nat) (checksumType : ChecksumType) (b : Bytes) :
    Option (Bytes × Bytes) :=
  let r := compressFn b
  let out := if r.data.length < b.length - b.length / 8 then r.data else b
  let bt := if r.data.length < b.length - b.length / 8 then r.blockType
            else noCompressionBlockType
  match checksummerChecksum crcFn xxhFn checksumType out [bt] with
  | none => none
  | some c => some (out, bt :: le32 c)

/-! Block writer.  block.go is not part of the provided source; the block
writer is modelled from the spec: entries are appended with prefix
compression against the previous key, a restart point (a 4-byte slot) is
emitted every `restartInterval` entries where the full key is written, and
the estimated size is the byte length of the buffer plus the restart-array
footprint (4 bytes per restart plus the 4-byte restart count trailer). -/

/-- Little-endian 8-byte encoding of a trailer. -/
def le64 (n : Nat) : Bytes :=
  [n % 256, n / 256 % 256, n / 65536 % 256, n / 16777216 % 256,
   n / 4294967296 % 256, n / 1099511627776 % 256,
   n / 281474976710656 % 256, n / 72057594037927936 % 256]

/-- Encoded form of an internal key: user key bytes then 8 trailer bytes. -/
def encodeIKey (k : IKey) : Bytes := k.uk ++ le64 k.trailer

/-- Length of the longest common prefix of two byte strings. -/
def commonPrefixLen : Bytes → Bytes → Nat
  | a :: as, b :: bs => if a = b then 1 + commonPrefixLen as bs else 0
  | _, _ => 0

/-- Modelled from the spec: blockWriter (block.go is not under src/).
`bufLen` tracks the byte length of the entry buffer; the entries themselves
are kept alongside so that theorems can speak about the block's contents.
`curKey` and `curValue` mirror blockWriter.getCurKey / blockWriter.curValue. -/
structure BlockWriter where
  restartInterval : Nat
  nEntries : Nat
  bufLen : Nat
  numRestarts : Nat
  curKey : IKey
  curValue : Bytes
  entries : List (IKey × Bytes)
deriving Repr, DecidableEq

/-- A fresh block writer. -/
def BlockWriter.empty (restartInterval : Nat) : BlockWriter :=
  ⟨restartInterval, 0, 0, 0, ⟨none, 0⟩, [], []⟩

/-- Modelled from the spec: blockWriter.add appends one entry, prefix
compressed against the previous key except at restart points. -/
def BlockWriter.add (w : BlockWriter) (k : IKey) (v : Bytes) : BlockWriter :=
  let keyBytes := encodeIKey k
  let isRestart := w.nEntries % w.restartInterval = 0
  let shared := if isRestart then 0 else commonPrefixLen (encodeIKey w.curKey) keyBytes
  let unshared := keyBytes.length - shared
  { w with
    nEntries := w.nEntries + 1
    numRestarts := w.numRestarts + (if isRestart then 1 else 0)
    bufLen := w.bufLen + uvarintLen shared + uvarintLen unshared +
      uvarintLen v.length + unshared + v.length
    curKey := k
    curValue := v
    entries := w.entries ++ [(k, v)] }

/-- blockWriter.estimatedSize: buffer length plus restart-array footprint. -/
def BlockWriter.estimatedSize (w : BlockWriter) : Nat :=
  w.bufLen + 4 * w.numRestarts + 4

/-- Length of blockWriter.finish's output: the buffer followed by the
restart array and the restart count. -/
def BlockWriter.finishLen (w : BlockWriter) : Nat :=
  w.bufLen + 4 * w.numRestarts + 4

/-- blockWriter.getCurUserKey. -/
def BlockWriter.getCurUserKey (w : BlockWriter) : Bytes := w.curKey.uk

/-- emptyBlockSize: the size of an empty block (the 4-byte restart count). -/
def emptyBlockSize : Nat := 4

/-! sizeEstimate (writer.go lines 310-396), translated field by field.
Go computes the inflight compression ratio in float64; at every observation
point relevant here `inflightSize = 0`, where the two computations agree,
and the model uses exact natural division. -/

/-- sizeEstimate state. -/
structure SizeEstimate where
  emptySize : Nat
  inflightSize : Nat
  totalSize : Nat
  numWrittenEntries : Nat
  numInflightEntries : Nat
  maxEstimatedSize : Nat
  compressedSize : Nat
  uncompressedSize : Nat
deriving Repr, DecidableEq

/-- A zeroed sizeEstimate with the given emptySize (sizeEstimate.init). -/
def SizeEstimate.init (emptySize : Nat) : SizeEstimate :=
  ⟨emptySize, 0, 0, 0, 0, 0, 0, 0⟩

/-- sizeEstimate.size: totalSize plus the ratio-scaled inflight size, clamped
below by the maximum previously returned (which the call also updates).
Returns the reported size together with the updated state. -/
def SizeEstimate.size (s : SizeEstimate) : Nat × SizeEstimate :=
  let estimatedInflightSize :=
    if s.uncompressedSize > 0 then
      s.inflightSize * s.compressedSize / s.uncompressedSize
    else s.inflightSize
  let total := s.totalSize + estimatedInflightSize
  let m := if total > s.maxEstimatedSize then total else s.maxEstimatedSize
  let reported := if m = 0 then s.emptySize else m
  (reported, { s with maxEstimatedSize := m })

/-- sizeEstimate.numTotalEntries. -/
def SizeEstimate.numTotalEntries (s : SizeEstimate) : Nat :=
  s.numWrittenEntries + s.numInflightEntries

/-- sizeEstimate.addInflight. -/
def SizeEstimate.addInflight (s : SizeEstimate) (size : Nat) : SizeEstimate :=
  { s with numInflightEntries := s.numInflightEntries + 1
           inflightSize := s.inflightSize + size }

/-- sizeEstimate.writtenWithDelta. -/
def SizeEstimate.writtenWithDelta (s : SizeEstimate) (finalEntrySize inflightSize : Nat) :
    SizeEstimate :=
  let s :=
    if inflightSize > 0 then
      { s with numInflightEntries := s.numInflightEntries - 1
               inflightSize := s.inflightSize - inflightSize
               uncompressedSize := s.uncompressedSize + inflightSize
               compressedSize := s.compressedSize + finalEntrySize }
    else s
  { s with numWrittenEntries := s.numWrittenEntries + 1
           totalSize := s.totalSize + finalEntrySize }

/-- sizeEstimate.writtenWithTotal: the delta form with the delta computed
from a (monotone) running total. -/
def SizeEstimate.writtenWithTotal (s : SizeEstimate) (newTotalSize inflightSize : Nat) :
    SizeEstimate :=
  s.writtenWithDelta (newTotalSize - s.totalSize) inflightSize

/-- dataBlockEstimates.dataBlockCompressed: account one compressed data
block plus its 5-byte trailer. -/
def dataBlockCompressed (s : SizeEstimate) (compressedSize inflightSize : Nat) :
    SizeEstimate :=
  s.writtenWithDelta (compressedSize + blockTrailerLen) inflightSize

/-! indexBlockBuf (writer.go lines 398-498), serial mode (no mutex). -/

/-- indexBlockRestartInterval. -/
def indexBlockRestartInterval : Nat := 1

/-- encodedBHPEstimatedSize = 2 * binary.MaxVarintLen64. -/
def encodedBHPEstimatedSize : Nat := 20

/-- indexBlockBuf: an index block writer together with its size estimate. -/
structure IndexBlockBuf where
  block : BlockWriter
  estimate : SizeEstimate
  restartInterval : Nat
deriving Repr, DecidableEq

/-- newIndexBlockBuf: fresh buffer with restart interval 1 and an estimate
initialised to the empty block size. -/
def IndexBlockBuf.new : IndexBlockBuf :=
  ⟨BlockWriter.empty indexBlockRestartInterval, SizeEstimate.init emptyBlockSize,
   indexBlockRestartInterval⟩

/-- indexBlockBuf.shouldFlush: the flush decision over the estimate-tracked
size and entry count.  Reading the size updates the estimate's maximum, so
the updated buffer is returned alongside. -/
def IndexBlockBuf.shouldFlush (i : IndexBlockBuf) (sep : IKey) (valueLen : Nat)
    (flushOptions : FlushDecisionOptions) (sizeClassHints : List Nat) :
    Bool × IndexBlockBuf :=
  let nEntries := i.estimate.numTotalEntries
  let (sz, e) := i.estimate.size
  (shouldFlushWithHints sep.size valueLen i.restartInterval sz nEntries
    flushOptions sizeClassHints,
   { i with estimate := e })

/-- indexBlockBuf.add: append the entry and mark its size as written. -/
def IndexBlockBuf.add (i : IndexBlockBuf) (k : IKey) (v : Bytes) (inflightSize : Nat) :
    IndexBlockBuf :=
  let b := i.block.add k v
  { i with block := b
           estimate := i.estimate.writtenWithTotal b.estimatedSize inflightSize }

/-- indexBlockBuf.addInflight. -/
def IndexBlockBuf.addInflight (i : IndexBlockBuf) (inflightSize : Nat) : IndexBlockBuf :=
  { i with estimate := i.estimate.addInflight inflightSize }

/-- indexBlockBuf.estimatedSize (reads, and therefore updates, the
estimate). -/
def IndexBlockBuf.estimatedSize (i : IndexBlockBuf) : Nat × IndexBlockBuf :=
  let (sz, e) := i.estimate.size
  (sz, { i with estimate := e })

/-! The Writer state machine: the serial (parallelism disabled) v2-format
point/range-del path of writer.go, with the injected callbacks gathered in
`WriterFuncs`.  The write queue degenerates to the synchronous invocation
described in the spec; compression is represented by the injected codec's
output length. -/

/-- The injected per-writer functions: comparator, index-separator and
successor (base.InternalKey.Separator / Successor with the configured
Comparer), and the compression codec's output length for a block of a given
length. -/
structure WriterFuncs where
  cmp : Bytes → Bytes → Int
  sepF : IKey → IKey → IKey
  succF : IKey → IKey
  compressLen : Nat → Nat

/-- Writer configuration taken from WriterOptions. -/
structure WriterConfig where
  dataBlockOptions : FlushDecisionOptions
  indexBlockOptions : FlushDecisionOptions
  restartInterval : Nat
  supportsTwoLevel : Bool
  sizeClassHints : List Nat
deriving Repr, DecidableEq

/-- An entry of Writer.indexPartitions (indexBlockAndBlockProperties):
the number of entries, the separator (last key of the partition) and the
finished block's length. -/
structure IndexPartition where
  nEntries : Nat
  sep : IKey
  blockLen : Nat
deriving Repr, DecidableEq

/-- Writer errors relevant to the modelled paths. -/
inductive WriterErr where
  | keyOrder
  | fragmentation
  | rangeDelSentinel
  | spanStartNotBeforeEnd
  | spanOutOfOrder
deriving Repr, DecidableEq

/-- The Writer state: current data block, current index block buffer, the
sstable size estimate (coordination.sizeEstimate.estimate), finished index
partitions, the two-level flag, the bytes written so far (meta.Size), the
last point trailer (lastPointKeyInfo.trailer), the range-del block and the
latched error. -/
structure WriterState where
  dataBlock : BlockWriter
  indexBlock : IndexBlockBuf
  dataEst : SizeEstimate
  indexPartitions : List IndexPartition
  twoLevelIndex : Bool
  metaSize : Nat
  lastTrailer : Nat
  rangeDelBlock : BlockWriter
  err : Option WriterErr
deriving Repr, DecidableEq

/-- NewWriter's initial state (serial mode; dataBlockEstimates starts as a
zeroed estimate with emptySize 0). -/
def initWriter (cfg : WriterConfig) : WriterState :=
  { dataBlock := BlockWriter.empty cfg.restartInterval
    indexBlock := IndexBlockBuf.new
    dataEst := SizeEstimate.init 0
    indexPartitions := []
    twoLevelIndex := false
    metaSize := 0
    lastTrailer := 0
    rangeDelBlock := BlockWriter.empty 1
    err := none }

/-- Writer.indexEntrySep: the successor of the previous key when the next
key is the zero key (nil user key and zero trailer), otherwise the separator
between the previous and next keys. -/
def indexEntrySep (F : WriterFuncs) (prevKey key : IKey) : IKey :=
  if key.userKey = none ∧ key.trailer = 0 then F.succF prevKey
  else F.sepF prevKey key

/-- Length of encodeBlockHandleWithProperties for an empty property set:
uvarints of the offset and the length (binary.PutUvarint on uint64s). -/
def encodeBHPLen (offset length : Nat) : Nat :=
  uvarintLen64 offset + uvarintLen64 length

/-- Writer.finishIndexBlock: clone the buffer's last key as the partition
separator and retain the finished block. -/
def finishIndexBlockM (st : WriterState) (indexBuf : IndexBlockBuf) : WriterState :=
  { st with indexPartitions := st.indexPartitions ++
      [⟨indexBuf.block.nEntries, indexBuf.block.curKey, indexBuf.block.finishLen⟩] }

/-- Writer.addIndexEntry: skip zero-length handles; otherwise finish the
carried index partition (enabling two-level mode) and append the separator
with the encoded handle to the current index buffer. -/
def addIndexEntryM (st : WriterState) (sep : IKey) (bhpOffset bhpLength : Nat)
    (flushIndexBuf : Option IndexBlockBuf) (inflightSize : Nat) : WriterState :=
  if bhpLength = 0 then st
  else
    let st :=
      match flushIndexBuf with
      | some fib => { finishIndexBlockM st fib with twoLevelIndex := true }
      | none => st
    let encodedLen := encodeBHPLen bhpOffset bhpLength
    { st with indexBlock := st.indexBlock.add sep (List.replicate encodedLen 0) inflightSize }

/-- Writer.flush for the serial pipeline: finish and (attempt to) compress
the data block, account it in the size estimate, compute the index
separator, decide whether the index block flushes, write the block and its
trailer, add the index entry (finishing the old index partition if one was
carried), and start a fresh data block.  The write queue step follows the
spec's synchronous degeneration. -/
def flushStep (F : WriterFuncs) (cfg : WriterConfig) (st : WriterState) (key : IKey) :
    WriterState :=
  let uncompressedLen := st.dataBlock.finishLen
  let cl := F.compressLen uncompressedLen
  let used := if cl < uncompressedLen - uncompressedLen / 8 then cl else uncompressedLen
  let dataEst := dataBlockCompressed st.dataEst used 0
  let prevKey := st.dataBlock.curKey
  let sep := indexEntrySep F prevKey key
  let (shouldFlushIdx, ib) :=
    if cfg.supportsTwoLevel then
      st.indexBlock.shouldFlush sep encodedBHPEstimatedSize cfg.indexBlockOptions
        cfg.sizeClassHints
    else (false, st.indexBlock)
  let flushable := if shouldFlushIdx then some ib else none
  let curIB := if shouldFlushIdx then IndexBlockBuf.new else ib
  let inflight := sep.size + encodedBHPEstimatedSize
  let curIB := curIB.addInflight inflight
  let offset := st.metaSize
  let st := { st with
    dataEst := dataEst
    metaSize := st.metaSize + used + blockTrailerLen
    indexBlock := curIB }
  let st := addIndexEntryM st sep offset used flushable inflight
  { st with dataBlock := BlockWriter.empty cfg.restartInterval }

/-- Writer.maybeFlush: flush the data block first when the offered entry
would overflow it. -/
def maybeFlushStep (F : WriterFuncs) (cfg : WriterConfig) (st : WriterState)
    (key : IKey) (valueLen : Nat) : WriterState :=
  if shouldFlushWithHints key.size valueLen st.dataBlock.restartInterval
      st.dataBlock.estimatedSize st.dataBlock.nEntries cfg.dataBlockOptions
      cfg.sizeClassHints then
    flushStep F cfg st key
  else st

/-- Writer.makeAddPointDecisionV2: record the new trailer, then reject the
key unless it is strictly greater than the previous point (user keys
ascending; at an equal user key the trailer must strictly decrease). -/
def makeAddPointDecisionV2 (F : WriterFuncs) (st : WriterState) (key : IKey) :
    WriterState × Option WriterErr :=
  let prevTrailer := st.lastTrailer
  let st := { st with lastTrailer := key.trailer }
  if st.dataBlock.nEntries = 0 then (st, none)
  else
    let prevPointUserKey := st.dataBlock.getCurUserKey
    let cmpUser := F.cmp prevPointUserKey key.uk
    if 0 < cmpUser ∨ (cmpUser = 0 ∧ prevTrailer ≤ key.trailer) then
      (st, some WriterErr.keyOrder)
    else (st, none)

/-- Writer.addPoint for the v2 table format: ordering decision, possible
flush, then append to the data block. -/
def addPoint (F : WriterFuncs) (cfg : WriterConfig) (st : WriterState)
    (key : IKey) (value : Bytes) : WriterState × Option WriterErr :=
  let (st, e) := makeAddPointDecisionV2 F st key
  match e with
  | some er => (st, some er)
  | none =>
    let st := maybeFlushStep F cfg st key value.length
    ({ st with dataBlock := st.dataBlock.add key value }, none)

/-- Writer.addTombstone for the v2 range-del format with key-order checks
enabled: fragmented order is verified against the previous tombstone, the
range-delete sentinel trailer is rejected, and accepted tombstones are
appended to the range-del block.  Errors are latched into the writer. -/
def addTombstoneM (F : WriterFuncs) (st : WriterState) (key : IKey) (value : Bytes) :
    WriterState × Option WriterErr :=
  let checked :=
    if 1 ≤ st.rangeDelBlock.nEntries then
      let prevKey := st.rangeDelBlock.curKey
      let c := F.cmp prevKey.uk key.uk
      if 0 < c then some WriterErr.keyOrder
      else if c = 0 then
        if F.cmp st.rangeDelBlock.curValue value ≠ 0 then some WriterErr.fragmentation
        else if prevKey.seqNum ≤ key.seqNum then some WriterErr.keyOrder
        else none
      else
        if 0 < F.cmp st.rangeDelBlock.curValue key.uk then some WriterErr.fragmentation
        else none
    else none
  match checked with
  | some er => ({ st with err := some er }, some er)
  | none =>
    if key.trailer = internalKeyRangeDeleteSentinel then
      ({ st with err := some WriterErr.rangeDelSentinel }, some WriterErr.rangeDelSentinel)
    else
      ({ st with rangeDelBlock := st.rangeDelBlock.add key value }, none)

/-- Writer.EstimatedSize: the written-data estimate plus the in-progress
data block and index block estimates.  Reading the estimates updates their
maxima, so the updated state is returned alongside. -/
def estimatedSizeM (st : WriterState) : Nat × WriterState :=
  let (a, e) := st.dataEst.size
  let (c, ib) := st.indexBlock.estimatedSize
  (a + st.dataBlock.estimatedSize + c,
   { st with dataEst := e, indexBlock := ib })

/-- Writer.Close, restricted to the parts that decide the index layout: on a
clean writer, write the trailing data block (or an empty one for an empty
file) and its index entry (possibly flushing the index block, as
addIndexEntrySep does), then, in two-level mode, finish the final
in-progress index block into a partition as writeTwoLevelIndex does. -/
def closeStep (F : WriterFuncs) (cfg : WriterConfig) (st : WriterState) : WriterState :=
  if st.err.isSome then st
  else
    let st :=
      if 0 < st.dataBlock.nEntries ∨ st.indexBlock.block.nEntries = 0 then
        let uncompressedLen := st.dataBlock.finishLen
        let cl := F.compressLen uncompressedLen
        let used := if cl < uncompressedLen - uncompressedLen / 8 then cl
                    else uncompressedLen
        let offset := st.metaSize
        let st := { st with metaSize := st.metaSize + used + blockTrailerLen }
        let prevKey := st.dataBlock.curKey
        let sep := indexEntrySep F prevKey ⟨none, 0⟩
        let (shouldFlush, ib) :=
          if cfg.supportsTwoLevel then
            st.indexBlock.shouldFlush sep encodedBHPEstimatedSize
              cfg.indexBlockOptions cfg.sizeClassHints
          else (false, st.indexBlock)
        let flushable := if shouldFlush then some ib else none
        let curIB := if shouldFlush then IndexBlockBuf.new else ib
        let twoLevel := if shouldFlush then true else st.twoLevelIndex
        let st := { st with indexBlock := curIB, twoLevelIndex := twoLevel }
        addIndexEntryM st sep offset used flushable 0
      else st
    if st.twoLevelIndex then finishIndexBlockM st st.indexBlock else st

/-- Operations a client can interleave on a writer. -/
inductive WriterOp where
  | point (k : IKey) (v : Bytes)
  | rangedel (k : IKey) (v : Bytes)
  | estQuery
deriving Repr

/-- One public API call.  Point and range-del additions first check the
latched error, as Writer.Add and Writer.DeleteRange do. -/
def runOp (F : WriterFuncs) (cfg : WriterConfig) (st : WriterState) :
    WriterOp → WriterState
  | WriterOp.point k v =>
    match st.err with
    | some _ => st
    | none => (addPoint F cfg st k v).1
  | WriterOp.rangedel k v =>
    match st.err with
    | some _ => st
    | none => (addTombstoneM F st k v).1
  | WriterOp.estQuery => (estimatedSizeM st).2

/-- Run a sequence of operations from a fresh writer. -/
def runOps (F : WriterFuncs) (cfg : WriterConfig) (ops : List WriterOp) : WriterState :=
  ops.foldl (runOp F cfg) (initWriter cfg)

/-- The two-level invariant relating Writer.twoLevelIndex to the finished
index partitions: the flag is set exactly when at least one partition has
been finished. -/
def twoLevelInv (st : WriterState) : Prop :=
  st.twoLevelIndex = true ↔ 1 ≤ st.indexPartitions.length


/-! Range-key spans (Writer.RangeKeySet / RangeKeyUnset / RangeKeyDelete /
addRangeKeySpan).  The keyspan.Fragmenter is outside the provided source;
it is modelled from the spec as retaining the start key of the spans it is
currently coalescing, together with the spans it has accepted. -/

/-- A key within a range-key span (keyspan.Key): trailer, optional suffix
and value. -/
structure SpanKey where
  trailer : Nat
  suffix : Bytes
  value : Bytes
deriving Repr, DecidableEq

/-- keyspan.Span: start and end user keys plus the keys applying over the
range. -/
structure Span where
  start : Bytes
  stop : Bytes
  keys : List SpanKey
deriving Repr, DecidableEq

/-- Modelled from the spec: the keyspan.Fragmenter state (the keyspan
package is not under src/).  `fragStart` is Fragmenter.Start(), the start
key of the spans currently being coalesced (`none` before any span
arrives), and `added` are the spans accepted so far. -/
structure FragState where
  fragStart : Option Bytes
  added : List Span
deriving Repr, DecidableEq

/-- Writer.addRangeKeySpan: reject spans whose start is not strictly below
their end, and spans starting before the fragmenter's current start;
otherwise hand the span to the fragmenter. -/
def addRangeKeySpan (cmp : Bytes → Bytes → Int) (st : FragState) (span : Span) :
    FragState × Option WriterErr :=
  if 0 ≤ cmp span.start span.stop then (st, some WriterErr.spanStartNotBeforeEnd)
  else
    match st.fragStart with
    | some s =>
      if 0 < cmp s span.start then (st, some WriterErr.spanOutOfOrder)
      else ({ fragStart := some span.start, added := st.added ++ [span] }, none)
    | none => ({ fragStart := some span.start, added := st.added ++ [span] }, none)

/-- InternalKeyKindRangeKeyDelete / Unset / Set. -/
def internalKeyKindRangeKeyDelete : Nat := 19

/-- InternalKeyKindRangeKeyUnset. -/
def internalKeyKindRangeKeyUnset : Nat := 20

/-- InternalKeyKindRangeKeySet. -/
def internalKeyKindRangeKeySet : Nat := 21

/-- Writer.RangeKeySet: a seqnum-zero RangeKeySet span through the
fragmenter. -/
def rangeKeySet (cmp : Bytes → Bytes → Int) (st : FragState)
    (start stop suffix value : Bytes) : FragState × Option WriterErr :=
  addRangeKeySpan cmp st
    ⟨start, stop, [⟨makeTrailer 0 internalKeyKindRangeKeySet, suffix, value⟩]⟩

/-- Writer.RangeKeyUnset: a seqnum-zero RangeKeyUnset span through the
fragmenter. -/
def rangeKeyUnset (cmp : Bytes → Bytes → Int) (st : FragState)
    (start stop suffix : Bytes) : FragState × Option WriterErr :=
  addRangeKeySpan cmp st
    ⟨start, stop, [⟨makeTrailer 0 internalKeyKindRangeKeyUnset, suffix, []⟩]⟩

/-- Writer.RangeKeyDelete: a seqnum-zero RangeKeyDelete span through the
fragmenter. -/
def rangeKeyDelete (cmp : Bytes → Bytes → Int) (st : FragState)
    (start stop : Bytes) : FragState × Option WriterErr :=
  addRangeKeySpan cmp st
    ⟨start, stop, [⟨makeTrailer 0 internalKeyKindRangeKeyDelete, [], []⟩]⟩

/-! The WAL record writer's sync queue.  Modelled from the spec: record/
log_writer.go is not part of the provided source (only its tests are).  Per
the spec, the sync queue is a ring of (waiter, error-slot) pairs; the
flusher writes and fsyncs the accumulated bytes, then pops the queued range
and stores the sync error (if any) into every popped error slot; a file
whose fsync fails keeps failing for subsequent batches. -/

/-- Modelled from the spec: the WAL log writer (record/log_writer.go is not
under src/, only its tests).  The state holds the error slots of the waiters
currently queued for sync and of all waiters already released by the
flusher. -/
structure WalState where
  queue : List (Option Nat)
  completed : List (Option Nat)
deriving Repr, DecidableEq

/-- WAL operations: a SyncRecord push of one waiter, or one flusher pass
(write, fsync, pop-all and broadcast the fsync error). -/
inductive WalOp where
  | push
  | flush
deriving Repr, DecidableEq

/-- Modelled from the spec: one step of the WAL log writer against a file
whose fsync always returns `fsyncErr`; syncQueue.pop stores the sync error
into every popped error slot before releasing the waiters. -/
def walStep (fsyncErr : Option Nat) (st : WalState) : WalOp → WalState
  | WalOp.push => { st with queue := st.queue ++ [none] }
  | WalOp.flush =>
    { queue := []
      completed := st.completed ++ st.queue.map (fun _ => fsyncErr) }

/-- Run a sequence of WAL operations from an empty writer. -/
def walRun (fsyncErr : Option Nat) (ops : List WalOp) : WalState :=
  ops.foldl (walStep fsyncErr) ⟨[], []⟩

/-! Concrete instances exercising the writer model (used to exhibit the
EstimatedSize decrease and as evaluation points for the theorems). -/

/-- A concrete set of injected functions: bytewise comparator, a separator
that returns the previous key (valid whenever no shorter separator exists),
the identity successor, and a codec whose output length equals its input
length (NoCompression). -/
def concreteFuncs : WriterFuncs :=
  { cmp := byteCompare
    sepF := fun prev _ => prev
    succF := fun prev => prev
    compressLen := fun n => n }

/-- A concrete writer configuration: tiny data blocks (so every add
flushes), an index block target of 120 bytes, a format with two-level
index support and no allocator hints. -/
def concreteConfig : WriterConfig :=
  { dataBlockOptions := ⟨1, 0, 0⟩
    indexBlockOptions := ⟨120, 108, 0⟩
    restartInterval := 16
    supportsTwoLevel := true
    sizeClassHints := [] }

/-- The i-th concrete point key: a 30-byte user key (29 bytes of 'a' and a
distinguishing final byte) at seqnum 5, kind Set. -/
def concreteKey (i : Nat) : IKey :=
  ⟨some (List.replicate 29 97 ++ [i]), makeTrailer 5 1⟩

/-- n concrete ascending point additions. -/
def concretePoints (n : Nat) : List WriterOp :=
  (List.range n).map (fun i => WriterOp.point (concreteKey (i + 1)) [0])

/-- A writer holding the single range-delete tombstone [0x61, 0x62)@9. -/
def c3PrevState : WriterState :=
  (addTombstoneM concreteFuncs (initWriter concreteConfig)
    ⟨some [97], makeTrailer 9 internalKeyKindRangeDelete⟩ [98]).1

/-- A writer holding one concrete point key. -/
def c2PrevState : WriterState :=
  (addPoint concreteFuncs concreteConfig (initWriter concreteConfig)
    (concreteKey 1) [0]).1

/-- The spec's description of the size of a block entry together with its
per-entry overhead: the entry itself, a 4-byte restart slot when the entry
count is a multiple of the restart interval, the 4-byte shared-length field,
and the varints for the unshared key length and the value length. -/
def entryNewSize (keyLen valueLen restartInterval numEntries base : Nat) : Nat :=
  base + keyLen + valueLen + (if numEntries % restartInterval = 0 then 4 else 0) +
    4 + uvarintLen keyLen + uvarintLen valueLen

/-! Theorems. -/

/-- Unfolding equation for shouldFlushWithoutHints with the lets expanded. -/
theorem shouldFlushWithoutHints_eq (k v ri est n : Nat) (fo : FlushDecisionOptions) :
    shouldFlushWithoutHints k v ri est n fo =
      if est ≥ fo.blockSize then true
      else if est ≤ fo.blockSizeThreshold then false
      else decide ((if n % ri = 0 then est + k + v + 4 else est + k + v) + 4 +
        uvarintLen k + uvarintLen v > fo.blockSize) := rfl

/-- The hint-less decision agrees with the spec's entry-plus-overhead bound
strictly between the threshold and the block size. -/
theorem shouldFlushWithoutHints_between (k v ri est n : Nat)
    (fo : FlushDecisionOptions) (h1 : fo.blockSizeThreshold < est)
    (h2 : est < fo.blockSize) :
    (shouldFlushWithoutHints k v ri est n fo = true ↔
      fo.blockSize < entryNewSize k v ri n est) := by
  rw [shouldFlushWithoutHints_eq, if_neg (by omega), if_neg (by omega)]
  simp only [entryNewSize, gt_iff_lt, decide_eq_true_eq]
  by_cases hmod : n % ri = 0
  · rw [if_pos hmod, if_pos hmod]
  · rw [if_neg hmod, if_neg hmod]

/-- C4: with no size-class hints, for a non-empty block the flush decision
returns true when the estimated size is at or above blockSize, returns false
whenever it is below blockSizeThreshold, and strictly in between returns
true exactly when the estimated size plus the new entry and its per-entry
overhead (restart slot when the entry count is a multiple of the restart
interval, shared-length field, varints for the unshared key length and the
value length) exceeds blockSize; a block with zero entries never flushes.
The threshold is a percentage of the block size, so it is assumed not to
exceed it. -/
theorem c4_flush_decision_without_hints (keyLen valueLen restartInterval
    estimatedBlockSize numEntries : Nat) (fo : FlushDecisionOptions)
    (hn : 0 < numEntries) (hth : fo.blockSizeThreshold ≤ fo.blockSize) :
    (fo.blockSize ≤ estimatedBlockSize →
      shouldFlushWithHints keyLen valueLen restartInterval estimatedBlockSize
        numEntries fo [] = true) ∧
    (estimatedBlockSize < fo.blockSizeThreshold →
      shouldFlushWithHints keyLen valueLen restartInterval estimatedBlockSize
        numEntries fo [] = false) ∧
    (fo.blockSizeThreshold < estimatedBlockSize → estimatedBlockSize < fo.blockSize →
      (shouldFlushWithHints keyLen valueLen restartInterval estimatedBlockSize
          numEntries fo [] = true ↔
        fo.blockSize <
          entryNewSize keyLen valueLen restartInterval numEntries estimatedBlockSize)) ∧
    shouldFlushWithHints keyLen valueLen restartInterval estimatedBlockSize 0 fo [] =
      false := by
  have hwith : shouldFlushWithHints keyLen valueLen restartInterval estimatedBlockSize
      numEntries fo [] = shouldFlushWithoutHints keyLen valueLen restartInterval
        estimatedBlockSize numEntries fo := by
    simp [shouldFlushWithHints, Nat.pos_iff_ne_zero.mp hn]
  refine ⟨?_, ?_, ?_, by simp [shouldFlushWithHints]⟩
  · intro h
    rw [hwith, shouldFlushWithoutHints_eq, if_pos (by omega)]
  · intro h
    rw [hwith, shouldFlushWithoutHints_eq, if_neg (by omega), if_pos (by omega)]
  · intro h1 h2
    rw [hwith]
    exact shouldFlushWithoutHints_between _ _ _ _ _ _ h1 h2

/-- C4 witness: a concrete in-between block where the decision matches the
entry-plus-overhead bound. -/
theorem c4_flush_decision_without_hints_witness :
    0 < 3 ∧
    (shouldFlushWithHints 10 20 16 90 3 ⟨100, 50, 0⟩ [] = true ↔
      100 < entryNewSize 10 20 16 3 90) :=
  ⟨by decide,
    (c4_flush_decision_without_hints 10 20 16 90 3 ⟨100, 50, 0⟩ (by decide)
      (by decide)).2.2.1 (by decide) (by decide)⟩

/-- Unfolding equation for shouldFlushWithHints with the lets expanded. -/
theorem shouldFlushWithHints_eq (k v ri est n : Nat) (fo : FlushDecisionOptions)
    (hints : List Nat) :
    shouldFlushWithHints k v ri est n fo hints =
      if n = 0 then false
      else if hints.isEmpty then shouldFlushWithoutHints k v ri est n fo
      else if est + valueMetadataSize ≤ fo.sizeClassAwareThreshold ∨
          est + valueMetadataSize + k + v + 18 ≤ fo.blockSize then false
      else
        match blockSizeClass (est + valueMetadataSize) hints with
        | none => shouldFlushWithoutHints k v ri est n fo
        | some c =>
          if est + valueMetadataSize < fo.blockSize then
            match blockSizeClass ((if n % ri = 0 then est + valueMetadataSize + k + v + 4
                else est + valueMetadataSize + k + v) + 4 + uvarintLen k + uvarintLen v)
                hints with
            | some nc =>
              decide ((nc : Int) -
                ((if n % ri = 0 then est + valueMetadataSize + k + v + 4
                  else est + valueMetadataSize + k + v) + 4 + uvarintLen k + uvarintLen v) ≥
                (c : Int) - (est + valueMetadataSize))
            | none => false
          else
            decide ((if n % ri = 0 then est + valueMetadataSize + k + v + 4
              else est + valueMetadataSize + k + v) + 4 + uvarintLen k + uvarintLen v > c) :=
  rfl

/-- C5 counterexample: with size-class hints a block whose estimated size
(5000) is above blockSize (4096) does not flush, because the next entry
still fits within the block's current allocator size class; this refutes
the claim that a block whose estimated size is above blockSize always
flushes. -/
theorem c5_counterexample :
    shouldFlushWithHints 10 10 16 5000 5 ⟨4096, 3686, 2048⟩ [8192] = false ∧
      4096 < 5000 := by decide

/-- C5 (amended): with non-empty size-class hints: an empty block never
flushes; a block whose size plus the cache-entry metadata overhead is at or
below sizeClassAwareThreshold never flushes, and likewise when that size
plus the next entry and an 18-byte upper-bound overhead would not exceed
blockSize; past those gates, if the block (with metadata) exceeds every
hint then the hint-less heuristic decides; otherwise, at or above blockSize
the block flushes exactly when the next entry would push it past its
current size class, and below blockSize it flushes early exactly when the
next entry lands the block in a size class whose slack is at least the
current class's slack. -/
theorem c5_flush_decision_with_hints (keyLen valueLen restartInterval
    estimatedBlockSize numEntries : Nat) (fo : FlushDecisionOptions)
    (hints : List Nat) (hne : hints ≠ []) :
    (shouldFlushWithHints keyLen valueLen restartInterval estimatedBlockSize
        0 fo hints = false) ∧
    (0 < numEntries →
      estimatedBlockSize + valueMetadataSize ≤ fo.sizeClassAwareThreshold →
      shouldFlushWithHints keyLen valueLen restartInterval estimatedBlockSize
        numEntries fo hints = false) ∧
    (0 < numEntries →
      estimatedBlockSize + valueMetadataSize + keyLen + valueLen + 18 ≤ fo.blockSize →
      shouldFlushWithHints keyLen valueLen restartInterval estimatedBlockSize
        numEntries fo hints = false) ∧
    (0 < numEntries →
      fo.sizeClassAwareThreshold < estimatedBlockSize + valueMetadataSize →
      fo.blockSize < estimatedBlockSize + valueMetadataSize + keyLen + valueLen + 18 →
      (blockSizeClass (estimatedBlockSize + valueMetadataSize) hints = none →
        shouldFlushWithHints keyLen valueLen restartInterval estimatedBlockSize
          numEntries fo hints =
        shouldFlushWithoutHints keyLen valueLen restartInterval estimatedBlockSize
          numEntries fo) ∧
      (∀ c, blockSizeClass (estimatedBlockSize + valueMetadataSize) hints = some c →
        (fo.blockSize ≤ estimatedBlockSize + valueMetadataSize →
          (shouldFlushWithHints keyLen valueLen restartInterval estimatedBlockSize
              numEntries fo hints = true ↔
            c < entryNewSize keyLen valueLen restartInterval numEntries
              (estimatedBlockSize + valueMetadataSize))) ∧
        (estimatedBlockSize + valueMetadataSize < fo.blockSize →
          (shouldFlushWithHints keyLen valueLen restartInterval estimatedBlockSize
              numEntries fo hints = true ↔
            ∃ nc, blockSizeClass (entryNewSize keyLen valueLen restartInterval
                numEntries (estimatedBlockSize + valueMetadataSize)) hints = some nc ∧
              (c : Int) - (estimatedBlockSize + valueMetadataSize) ≤
                (nc : Int) - (entryNewSize keyLen valueLen restartInterval numEntries
                  (estimatedBlockSize + valueMetadataSize)))))) := by
  have hie : ¬(hints.isEmpty = true) := by
    cases hints with
    | nil => exact absurd rfl hne
    | cons a l => simp
  have hentry : entryNewSize keyLen valueLen restartInterval numEntries
      (estimatedBlockSize + valueMetadataSize) =
      (if numEntries % restartInterval = 0 then
        estimatedBlockSize + valueMetadataSize + keyLen + valueLen + 4
       else estimatedBlockSize + valueMetadataSize + keyLen + valueLen) + 4 +
        uvarintLen keyLen + uvarintLen valueLen := by
    simp only [entryNewSize]
    by_cases hmod : numEntries % restartInterval = 0
    · rw [if_pos hmod, if_pos hmod]
    · rw [if_neg hmod, if_neg hmod]
  refine ⟨by rw [shouldFlushWithHints_eq, if_pos rfl], ?_, ?_, ?_⟩
  · intro hn hth
    rw [shouldFlushWithHints_eq, if_neg (by omega), if_neg hie, if_pos (Or.inl hth)]
  · intro hn hbs
    rw [shouldFlushWithHints_eq, if_neg (by omega), if_neg hie, if_pos (Or.inr hbs)]
  · intro hn hth hbs
    constructor
    · intro hnone
      rw [shouldFlushWithHints_eq, if_neg (by omega), if_neg hie, if_neg (by omega)]
      simp only [hnone]
    · intro c hc
      constructor
      · intro habove
        rw [shouldFlushWithHints_eq, if_neg (by omega), if_neg hie, if_neg (by omega)]
        simp only [hc]
        rw [if_neg (by omega : ¬(estimatedBlockSize + valueMetadataSize <
          fo.blockSize))]
        simp only [gt_iff_lt, decide_eq_true_eq, hentry]
      · intro hbelow
        rw [shouldFlushWithHints_eq, if_neg (by omega), if_neg hie, if_neg (by omega)]
        simp only [hc]
        rw [if_pos hbelow, hentry]
        rcases hnc : blockSizeClass ((if numEntries % restartInterval = 0 then
            estimatedBlockSize + valueMetadataSize + keyLen + valueLen + 4
          else estimatedBlockSize + valueMetadataSize + keyLen + valueLen) + 4 +
            uvarintLen keyLen + uvarintLen valueLen) hints with _ | nc
        · simp [hnc]
        · simp [hnc, ge_iff_le]

/-- C5 witness for the amended claim: a concrete above-blockSize block that
fits its size class flushes exactly when the next entry would exceed the
class. -/
theorem c5_flush_decision_with_hints_witness :
    0 < 5 ∧ 2048 < 5000 + 32 ∧ 4096 < 5000 + 32 + 10 + 10 + 18 ∧
    blockSizeClass (5000 + 32) [8192] = some 8192 ∧ 4096 ≤ 5000 + 32 ∧
    (shouldFlushWithHints 10 10 16 5000 5 ⟨4096, 3686, 2048⟩ [8192] = true ↔
      8192 < entryNewSize 10 10 16 5 (5000 + 32)) :=
  ⟨by decide, by decide, by decide, by decide, by decide,
    (((c5_flush_decision_with_hints 10 10 16 5000 5 ⟨4096, 3686, 2048⟩ [8192]
      (by decide)).2.2.2 (by decide) (by decide) (by decide)).2 8192
      (by decide)).1 (by decide)⟩

/-- C6: for every block, compression succeeds, the compressed form is kept
exactly when it is at least one eighth shorter than the input (otherwise the
input is kept and the block type is the no-compression type), and the 5-byte
trailer is the block-type byte followed by the little-endian uint32 checksum
of the configured algorithm applied to the block bytes followed by the type
byte. -/
theorem c6_block_compression_and_trailer (compressFn : Bytes → CompressResult)
    (crcFn xxhFn : Bytes → Nat) (ct : ChecksumType) (b : Bytes)
    (h : ct = ChecksumType.crc32c ∨ ct = ChecksumType.xxhash64) :
    ∃ out tr,
      compressAndChecksum compressFn crcFn xxhFn ct b = some (out, tr) ∧
      tr.length = 5 ∧
      (if (compressFn b).data.length < b.length - b.length / 8
        then out = (compressFn b).data ∧ tr.headD 0 = (compressFn b).blockType
        else out = b ∧ tr.headD 0 = noCompressionBlockType) ∧
      tr.tail = le32 ((match ct with
        | ChecksumType.crc32c => crcFn (out ++ [tr.headD 0])
        | _ => xxhFn (out ++ [tr.headD 0])) % 4294967296) := by
  rcases h with h | h <;> subst h <;>
    simp only [compressAndChecksum, checksummerChecksum] <;>
    by_cases hlt : (compressFn b).data.length < b.length - b.length / 8 <;>
    refine ⟨_, _, rfl, by simp [le32], ?_, by simp⟩ <;>
    simp [hlt]

/-- C6 witness: a concrete block with a CRC-32C-style checksum function. -/
theorem c6_block_compression_and_trailer_witness :
    ∃ out tr,
      compressAndChecksum (fun _ => ⟨1, [7]⟩) (fun bs => bs.length) (fun _ => 0)
        ChecksumType.crc32c [1, 2, 3] = some (out, tr) ∧
      tr.length = 5 ∧
      (if ([7] : Bytes).length < ([1, 2, 3] : Bytes).length - ([1, 2, 3] : Bytes).length / 8
        then out = [7] ∧ tr.headD 0 = 1
        else out = [1, 2, 3] ∧ tr.headD 0 = noCompressionBlockType) ∧
      tr.tail = le32 ((out ++ [tr.headD 0]).length % 4294967296) :=
  c6_block_compression_and_trailer (fun _ => ⟨1, [7]⟩) (fun bs => bs.length)
    (fun _ => 0) ChecksumType.crc32c [1, 2, 3] (Or.inl rfl)

/-- Rejected spans leave the fragmenter untouched. -/
theorem addRangeKeySpan_rejects (cmp : Bytes → Bytes → Int) (st : FragState)
    (span : Span)
    (h : 0 ≤ cmp span.start span.stop ∨
      ∃ s, st.fragStart = some s ∧ 0 < cmp s span.start) :
    (addRangeKeySpan cmp st span).1 = st ∧
      ((addRangeKeySpan cmp st span).2).isSome = true := by
  unfold addRangeKeySpan
  by_cases h1 : 0 ≤ cmp span.start span.stop
  · simp [h1]
  · rcases h with h | ⟨s, hs, hlt⟩
    · exact absurd h h1
    · rw [if_neg h1]
      simp only [hs]
      simp [hlt]

/-- C10: RangeKeySet, RangeKeyUnset and RangeKeyDelete return an error and
add no span to the fragmenter whenever the start key is not strictly below
the end key, and likewise whenever the start key is below the fragmenter's
current start. -/
theorem c10_range_key_span_rejected (cmp : Bytes → Bytes → Int) (st : FragState)
    (start stop suffix value : Bytes)
    (h : 0 ≤ cmp start stop ∨ ∃ s, st.fragStart = some s ∧ 0 < cmp s start) :
    (rangeKeySet cmp st start stop suffix value).1 = st ∧
    ((rangeKeySet cmp st start stop suffix value).2).isSome = true ∧
    (rangeKeyUnset cmp st start stop suffix).1 = st ∧
    ((rangeKeyUnset cmp st start stop suffix).2).isSome = true ∧
    (rangeKeyDelete cmp st start stop).1 = st ∧
    ((rangeKeyDelete cmp st start stop).2).isSome = true := by
  have h1 := addRangeKeySpan_rejects cmp st
    ⟨start, stop, [⟨makeTrailer 0 internalKeyKindRangeKeySet, suffix, value⟩]⟩ h
  have h2 := addRangeKeySpan_rejects cmp st
    ⟨start, stop, [⟨makeTrailer 0 internalKeyKindRangeKeyUnset, suffix, []⟩]⟩ h
  have h3 := addRangeKeySpan_rejects cmp st
    ⟨start, stop, [⟨makeTrailer 0 internalKeyKindRangeKeyDelete, [], []⟩]⟩ h
  exact ⟨h1.1, h1.2, h2.1, h2.2, h3.1, h3.2⟩

/-- C10 witness: a span whose start equals its end is rejected by all three
range-key operations without touching the fragmenter. -/
theorem c10_range_key_span_rejected_witness :
    (rangeKeySet byteCompare ⟨none, []⟩ [2] [2] [] []).1 = ⟨none, []⟩ ∧
    ((rangeKeySet byteCompare ⟨none, []⟩ [2] [2] [] []).2).isSome = true ∧
    (rangeKeyUnset byteCompare ⟨none, []⟩ [2] [2] []).1 = ⟨none, []⟩ ∧
    ((rangeKeyUnset byteCompare ⟨none, []⟩ [2] [2] []).2).isSome = true ∧
    (rangeKeyDelete byteCompare ⟨none, []⟩ [2] [2]).1 = ⟨none, []⟩ ∧
    ((rangeKeyDelete byteCompare ⟨none, []⟩ [2] [2]).2).isSome = true :=
  c10_range_key_span_rejected byteCompare ⟨none, []⟩ [2] [2] [] []
    (Or.inl (by decide))

/-- C9: against a file whose fsync always fails with error e, every waiter
released by the flusher — across every batch of the run — observes e in its
error slot. -/
theorem c9_wal_sync_error_broadcast (e : Nat) (ops : List WalOp) :
    ∀ slot ∈ (walRun (some e) ops).completed, slot = some e := by
  have main : ∀ (l : List WalOp) (st : WalState),
      (∀ s ∈ st.completed, s = some e) →
      ∀ s ∈ (l.foldl (walStep (some e)) st).completed, s = some e := by
    intro l
    induction l with
    | nil => intro st h; exact h
    | cons op rest ih =>
      intro st h
      refine ih _ ?_
      cases op with
      | push => exact h
      | flush =>
        intro s hs
        simp only [walStep] at hs
        rcases List.mem_append.mp hs with hs | hs
        · exact h s hs
        · rcases List.mem_map.mp hs with ⟨x, _, rfl⟩
          rfl
  exact main ops ⟨[], []⟩ (by simp)

/-- C9 witness: three records synced in one batch against a failing fsync
all see the injected error, as do waiters of a subsequent batch. -/
theorem c9_wal_sync_error_broadcast_witness :
    ((walRun (some 7) [WalOp.push, WalOp.push, WalOp.push, WalOp.flush,
      WalOp.push, WalOp.flush]).completed).getD 0 none = some 7 :=
  c9_wal_sync_error_broadcast 7
    [WalOp.push, WalOp.push, WalOp.push, WalOp.flush, WalOp.push, WalOp.flush]
    _ (by decide)

/-- C1: the failing run.  Four ascending point additions (each flushed into
its own tiny data block), an EstimatedSize call, and a fifth addition whose
data-block flush also flushes the first index partition: the next
EstimatedSize result is strictly smaller than the previous one, because the
finished index partition's bytes leave the index-block estimate without
entering the written-data estimate.  This contradicts the claimed (and
documented) monotonicity of EstimatedSize. -/
theorem c1_estimated_size_decrease :
    (estimatedSizeM (runOps concreteFuncs concreteConfig
        (concretePoints 4 ++ [WriterOp.estQuery, WriterOp.point (concreteKey 5) [0]]))).1 <
      (estimatedSizeM (runOps concreteFuncs concreteConfig (concretePoints 4))).1 := by
  decide

/-- Appending an entry to a block makes it the block's last entry. -/
theorem BlockWriter.add_entries_getLast (w : BlockWriter) (k : IKey) (v : Bytes) :
    (w.add k v).entries.getLast? = some (k, v) := by
  simp [BlockWriter.add]

/-- C2: a point addition on a writer already holding a point key returns an
error exactly when the new user key is below the previous point's user key,
or the user keys are equal and the new trailer is at or above the previous
trailer; on success the entry is appended to the (current) data block. -/
theorem c2_point_key_ordering (F : WriterFuncs) (cfg : WriterConfig)
    (st : WriterState) (key : IKey) (value : Bytes)
    (hentries : 1 ≤ st.dataBlock.nEntries) :
    (((addPoint F cfg st key value).2).isSome ↔
      0 < F.cmp st.dataBlock.getCurUserKey key.uk ∨
        (F.cmp st.dataBlock.getCurUserKey key.uk = 0 ∧
          st.lastTrailer ≤ key.trailer)) ∧
    ((addPoint F cfg st key value).2 = none →
      ((addPoint F cfg st key value).1).dataBlock.entries.getLast? =
        some (key, value)) := by
  have hne : ¬ st.dataBlock.nEntries = 0 := by omega
  by_cases hviol : 0 < F.cmp st.dataBlock.getCurUserKey key.uk ∨
      (F.cmp st.dataBlock.getCurUserKey key.uk = 0 ∧ st.lastTrailer ≤ key.trailer)
  · simp [addPoint, makeAddPointDecisionV2, hne, hviol]
  · simp [addPoint, makeAddPointDecisionV2, hne, hviol,
      BlockWriter.add_entries_getLast]

/-- C2 witness: an in-order second point key is accepted and lands as the
data block's last entry. -/
theorem c2_point_key_ordering_witness :
    1 ≤ c2PrevState.dataBlock.nEntries ∧
    (addPoint concreteFuncs concreteConfig c2PrevState (concreteKey 2) [0]).2 = none ∧
    ((addPoint concreteFuncs concreteConfig c2PrevState
        (concreteKey 2) [0]).1).dataBlock.entries.getLast? =
      some (concreteKey 2, [0]) :=
  ⟨by decide, by decide,
    (c2_point_key_ordering concreteFuncs concreteConfig c2PrevState
      (concreteKey 2) [0] (by decide)).2 (by decide)⟩

/-- C3 counterexample: after the tombstone [0x61, 0x62)@9, a tombstone whose
start (0x63) strictly exceeds the previous start and is not overlapped by
the previous end (0x62), but whose trailer is the range-delete sentinel, is
rejected — although the claim asserts that in this case the call errs only
when the previous end key exceeds the new start key. -/
theorem c3_counterexample :
    byteCompare c3PrevState.rangeDelBlock.curKey.uk [99] < 0 ∧
    ¬ 0 < byteCompare c3PrevState.rangeDelBlock.curValue [99] ∧
    ((addTombstoneM concreteFuncs c3PrevState
      ⟨some [99], internalKeyRangeDeleteSentinel⟩ [100]).2).isSome = true := by
  decide

/-- When the block handle has non-zero length, addIndexEntry appends the
separator (with the encoded handle) as the last entry of the current index
block. -/
theorem addIndexEntryM_entries (st : WriterState) (sep : IKey) (off len : Nat)
    (fib : Option IndexBlockBuf) (infl : Nat) (hlen : len ≠ 0) :
    (addIndexEntryM st sep off len fib infl).indexBlock.block.entries.getLast? =
      some (sep, List.replicate (encodeBHPLen off len) 0) := by
  unfold addIndexEntryM
  rw [if_neg hlen]
  cases fib <;>
    simp [IndexBlockBuf.add, BlockWriter.add_entries_getLast, finishIndexBlockM]

/-- How addIndexEntry changes the partition list and the two-level flag:
with a non-zero handle and a carried partition, one partition is appended
and two-level mode turns on; otherwise both are unchanged. -/
theorem addIndexEntryM_partitions (st : WriterState) (sep : IKey) (off len : Nat)
    (fib : Option IndexBlockBuf) (infl : Nat) :
    ((addIndexEntryM st sep off len fib infl).indexPartitions.length =
      st.indexPartitions.length + (if len ≠ 0 ∧ fib.isSome then 1 else 0)) ∧
    ((addIndexEntryM st sep off len fib infl).twoLevelIndex =
      (if len ≠ 0 ∧ fib.isSome then true else st.twoLevelIndex)) := by
  unfold addIndexEntryM
  by_cases hlen : len = 0
  · simp [hlen]
  · cases fib <;> simp [hlen, IndexBlockBuf.add, finishIndexBlockM]

/-- C3 (amended): a v2-format tombstone addition after at least one prior
tombstone errs exactly when: the start keys are equal and the end keys
differ or the new seqnum is not strictly below the previous; or the new
start is below the previous start; or the new start strictly exceeds the
previous start and the previous end exceeds the new start; or — in every
case — the new trailer is the range-delete sentinel. -/
theorem c3_rangedel_fragmented_order (F : WriterFuncs) (st : WriterState)
    (key : IKey) (value : Bytes) (hprev : 1 ≤ st.rangeDelBlock.nEntries) :
    (((addTombstoneM F st key value).2).isSome = true ↔
      (0 < F.cmp st.rangeDelBlock.curKey.uk key.uk ∨
       (F.cmp st.rangeDelBlock.curKey.uk key.uk = 0 ∧
         (F.cmp st.rangeDelBlock.curValue value ≠ 0 ∨
          st.rangeDelBlock.curKey.seqNum ≤ key.seqNum)) ∨
       (F.cmp st.rangeDelBlock.curKey.uk key.uk < 0 ∧
         0 < F.cmp st.rangeDelBlock.curValue key.uk) ∨
       key.trailer = internalKeyRangeDeleteSentinel)) := by
  rcases lt_trichotomy (F.cmp st.rangeDelBlock.curKey.uk key.uk) 0 with hc | hc | hc
  · have h1 : ¬ 0 < F.cmp st.rangeDelBlock.curKey.uk key.uk := by omega
    have h2 : ¬ F.cmp st.rangeDelBlock.curKey.uk key.uk = 0 := by omega
    by_cases hov : 0 < F.cmp st.rangeDelBlock.curValue key.uk
    · simp [addTombstoneM, hprev, h1, h2, hov, hc]
    · by_cases hsent : key.trailer = internalKeyRangeDeleteSentinel <;>
        simp [addTombstoneM, hprev, h1, h2, hov, hc, hsent]
  · have h1 : ¬ 0 < F.cmp st.rangeDelBlock.curKey.uk key.uk := by omega
    by_cases hend : F.cmp st.rangeDelBlock.curValue value ≠ 0
    · simp [addTombstoneM, hprev, h1, hc, hend]
    · by_cases hseq : st.rangeDelBlock.curKey.seqNum ≤ key.seqNum
      · simp [addTombstoneM, hprev, h1, hc, hend, hseq]
      · by_cases hsent : key.trailer = internalKeyRangeDeleteSentinel <;>
          simp [addTombstoneM, hprev, h1, hc, hend, hseq, hsent]
  · simp [addTombstoneM, hprev, hc, (by omega : ¬ F.cmp st.rangeDelBlock.curKey.uk key.uk < 0),
      (by omega : ¬ F.cmp st.rangeDelBlock.curKey.uk key.uk = 0)]

/-- C3 witness: after [0x61, 0x62)@9, the aligned lower-seqnum tombstone
[0x61, 0x62)@5 satisfies none of the error conditions and is accepted. -/
theorem c3_rangedel_fragmented_order_witness :
    1 ≤ c3PrevState.rangeDelBlock.nEntries ∧
    ¬ (((addTombstoneM concreteFuncs c3PrevState
      ⟨some [97], makeTrailer 5 internalKeyKindRangeDelete⟩ [98]).2).isSome = true) := by
  refine ⟨by decide, ?_⟩
  rw [c3_rangedel_fragmented_order concreteFuncs c3PrevState
    ⟨some [97], makeTrailer 5 internalKeyKindRangeDelete⟩ [98] (by decide)]
  decide

theorem addIndexEntryM_preserves_inv (st : WriterState) (sep : IKey)
    (off len : Nat) (fib : Option IndexBlockBuf) (infl : Nat)
    (h : twoLevelInv st) : twoLevelInv (addIndexEntryM st sep off len fib infl) := by
  obtain ⟨h1, h2⟩ := addIndexEntryM_partitions st sep off len fib infl
  unfold twoLevelInv at *
  rw [h1, h2]
  split
  · simp
  · simpa using h

theorem flushStep_preserves_inv (F : WriterFuncs) (cfg : WriterConfig)
    (st : WriterState) (key : IKey) (h : twoLevelInv st) :
    twoLevelInv (flushStep F cfg st key) := by
  simp only [twoLevelInv, flushStep]
  exact addIndexEntryM_preserves_inv _ _ _ _ _ _ h

theorem maybeFlushStep_preserves_inv (F : WriterFuncs) (cfg : WriterConfig)
    (st : WriterState) (key : IKey) (valueLen : Nat) (h : twoLevelInv st) :
    twoLevelInv (maybeFlushStep F cfg st key valueLen) := by
  unfold maybeFlushStep
  split
  · exact flushStep_preserves_inv F cfg st key h
  · exact h

theorem makeAddPointDecisionV2_fst (F : WriterFuncs) (st : WriterState) (key : IKey) :
    (makeAddPointDecisionV2 F st key).1 = { st with lastTrailer := key.trailer } := by
  simp only [makeAddPointDecisionV2]
  split
  · rfl
  · split <;> rfl

theorem addPoint_preserves_inv (F : WriterFuncs) (cfg : WriterConfig)
    (st : WriterState) (key : IKey) (value : Bytes) (h : twoLevelInv st) :
    twoLevelInv ((addPoint F cfg st key value).1) := by
  have hfst := makeAddPointDecisionV2_fst F st key
  rcases hd : makeAddPointDecisionV2 F st key with ⟨st1, e⟩
  rw [hd] at hfst
  simp only at hfst
  have hinv1 : twoLevelInv st1 := by
    rw [hfst]; exact h
  simp only [addPoint, hd]
  cases e with
  | some er => exact hinv1
  | none =>
    exact maybeFlushStep_preserves_inv F cfg st1 key value.length hinv1

theorem addTombstoneM_fields (F : WriterFuncs) (st : WriterState) (key : IKey)
    (value : Bytes) :
    ((addTombstoneM F st key value).1).twoLevelIndex = st.twoLevelIndex ∧
    ((addTombstoneM F st key value).1).indexPartitions = st.indexPartitions := by
  simp only [addTombstoneM]
  split
  · simp
  · split <;> simp

theorem estimatedSizeM_fields (st : WriterState) :
    ((estimatedSizeM st).2).twoLevelIndex = st.twoLevelIndex ∧
    ((estimatedSizeM st).2).indexPartitions = st.indexPartitions := by
  simp [estimatedSizeM]

theorem runOp_preserves_inv (F : WriterFuncs) (cfg : WriterConfig)
    (st : WriterState) (op : WriterOp) (h : twoLevelInv st) :
    twoLevelInv (runOp F cfg st op) := by
  cases op with
  | point k v =>
    simp only [runOp]
    cases st.err with
    | some e => exact h
    | none => exact addPoint_preserves_inv F cfg st k v h
  | rangedel k v =>
    simp only [runOp]
    cases st.err with
    | some e => exact h
    | none =>
      obtain ⟨h1, h2⟩ := addTombstoneM_fields F st k v
      unfold twoLevelInv at *
      rw [h1, h2]
      exact h
  | estQuery =>
    obtain ⟨h1, h2⟩ := estimatedSizeM_fields st
    unfold twoLevelInv at *
    simp only [runOp]
    rw [h1, h2]
    exact h

theorem runOps_inv (F : WriterFuncs) (cfg : WriterConfig) (ops : List WriterOp) :
    twoLevelInv (runOps F cfg ops) := by
  have main : forall (l : List WriterOp) (st : WriterState), twoLevelInv st ->
      twoLevelInv (l.foldl (runOp F cfg) st) := by
    intro l
    induction l with
    | nil => intro st h; exact h
    | cons op rest ih =>
      intro st h
      exact ih _ (runOp_preserves_inv F cfg st op h)
  exact main ops (initWriter cfg) (by simp [twoLevelInv, initWriter])

theorem finishIndexBlockM_fields (st : WriterState) (ib : IndexBlockBuf) :
    (finishIndexBlockM st ib).twoLevelIndex = st.twoLevelIndex ∧
    (finishIndexBlockM st ib).indexPartitions.length =
      st.indexPartitions.length + 1 := by
  simp [finishIndexBlockM]

theorem closeStep_two_level_iff (F : WriterFuncs) (cfg : WriterConfig)
    (st : WriterState) (hcl : forall n, 0 < n -> 0 < F.compressLen n)
    (h : twoLevelInv st) (herr : st.err = none) :
    ((closeStep F cfg st).twoLevelIndex = true <->
      2 <= (closeStep F cfg st).indexPartitions.length) := by
  have hfin : 0 < st.dataBlock.finishLen := by
    simp [BlockWriter.finishLen]
  have hused : (if F.compressLen st.dataBlock.finishLen <
        st.dataBlock.finishLen - st.dataBlock.finishLen / 8 then
      F.compressLen st.dataBlock.finishLen else st.dataBlock.finishLen) ≠ 0 := by
    split
    · exact Nat.pos_iff_ne_zero.mp (hcl _ hfin)
    · omega
  simp only [closeStep, herr, Option.isSome_none, Bool.false_eq_true, if_false]
  by_cases hbr : 0 < st.dataBlock.nEntries ∨ st.indexBlock.block.nEntries = 0
  · rw [if_pos hbr]
    generalize hu : (if F.compressLen st.dataBlock.finishLen <
        st.dataBlock.finishLen - st.dataBlock.finishLen / 8 then
      F.compressLen st.dataBlock.finishLen else st.dataBlock.finishLen) = u at hused ⊢
    generalize hp : (if cfg.supportsTwoLevel = true then
        st.indexBlock.shouldFlush (indexEntrySep F st.dataBlock.curKey ⟨none, 0⟩)
          encodedBHPEstimatedSize cfg.indexBlockOptions cfg.sizeClassHints
      else (false, st.indexBlock)) = p
    obtain ⟨sf, ib⟩ := p
    unfold twoLevelInv at h
    cases sf
    · simp [addIndexEntryM, hused, finishIndexBlockM, IndexBlockBuf.add]
      cases hts : st.twoLevelIndex
      · rw [hts] at h
        simp only [Bool.false_eq_true, false_iff, not_le] at h
        simp
        omega
      · rw [hts] at h
        simp only [true_iff] at h
        simp
        omega
    · simp [addIndexEntryM, hused, finishIndexBlockM, IndexBlockBuf.add]
  · rw [if_neg hbr]
    cases hts : st.twoLevelIndex with
    | true =>
      rw [if_pos rfl]
      obtain ⟨f1, f2⟩ := finishIndexBlockM_fields st st.indexBlock
      rw [f1, f2, hts]
      unfold twoLevelInv at h
      rw [hts] at h
      simp at h
      simp
      omega
    | false =>
      rw [if_neg (by simp)]
      unfold twoLevelInv at h
      rw [hts] at h
      simp at h
      simp [hts, h]

theorem if_finishIndexBlockM_indexBlock (c : Prop) [Decidable c]
    (X : WriterState) (Y : IndexBlockBuf) :
    (if c then finishIndexBlockM X Y else X).indexBlock = X.indexBlock := by
  split <;> rfl

theorem indexEntrySep_nonzero (F : WriterFuncs) (prevKey key : IKey)
    (h : ¬(key.userKey = none ∧ key.trailer = 0)) :
    indexEntrySep F prevKey key = F.sepF prevKey key := by
  unfold indexEntrySep
  rw [if_neg h]

theorem indexEntrySep_zero (F : WriterFuncs) (prevKey : IKey) :
    indexEntrySep F prevKey ⟨none, 0⟩ = F.succF prevKey := by
  unfold indexEntrySep
  rw [if_pos ⟨rfl, rfl⟩]

/-- C7: when a data block is flushed with a known next key, the index entry
added for it carries Separator(prevKey, nextKey), where prevKey is the last
key of the finished block; for the final data block at Close (signalled by
the zero key) the index entry carries Successor(prevKey). -/
theorem c7_index_entry_separator (F : WriterFuncs) (cfg : WriterConfig)
    (st : WriterState) (key : IKey)
    (hkey : ¬(key.userKey = none ∧ key.trailer = 0))
    (hcl : ∀ n, 0 < n → 0 < F.compressLen n)
    (herr : st.err = none) (hdata : 0 < st.dataBlock.nEntries) :
    (((flushStep F cfg st key).indexBlock.block.entries.getLast?).map Prod.fst =
      some (F.sepF st.dataBlock.curKey key)) ∧
    (((closeStep F cfg st).indexBlock.block.entries.getLast?).map Prod.fst =
      some (F.succF st.dataBlock.curKey)) := by
  have hfin : 0 < st.dataBlock.finishLen := by
    simp [BlockWriter.finishLen]
  have hused : (if F.compressLen st.dataBlock.finishLen <
        st.dataBlock.finishLen - st.dataBlock.finishLen / 8 then
      F.compressLen st.dataBlock.finishLen else st.dataBlock.finishLen) ≠ 0 := by
    split
    · exact Nat.pos_iff_ne_zero.mp (hcl _ hfin)
    · omega
  constructor
  · simp only [flushStep]
    rw [addIndexEntryM_entries _ _ _ _ _ _ hused]
    simp [indexEntrySep_nonzero F _ key hkey]
  · simp only [closeStep, herr, Option.isSome_none, Bool.false_eq_true, if_false]
    rw [if_pos (Or.inl hdata), if_finishIndexBlockM_indexBlock,
      addIndexEntryM_entries _ _ _ _ _ _ hused]
    simp [indexEntrySep_zero]

/-- C8: for every operation sequence whose Close completes on a clean
writer, two-level index mode is enabled exactly when the number of index
partitions is at least 2 — two-level mode engages with the first index-block
flush, and Close then also finishes the final in-progress index block into a
partition. -/
theorem c8_two_level_iff_partitions (F : WriterFuncs) (cfg : WriterConfig)
    (ops : List WriterOp) (hcl : ∀ n, 0 < n → 0 < F.compressLen n)
    (herr : (runOps F cfg ops).err = none) :
    ((closeStep F cfg (runOps F cfg ops)).twoLevelIndex = true ↔
      2 ≤ (closeStep F cfg (runOps F cfg ops)).indexPartitions.length) :=
  closeStep_two_level_iff F cfg (runOps F cfg ops) hcl (runOps_inv F cfg ops) herr

/-- C7 witness: a writer holding one point key, flushed against the next
concrete key and closed. -/
theorem c7_index_entry_separator_witness :
    0 < c2PrevState.dataBlock.nEntries ∧
    (((flushStep concreteFuncs concreteConfig c2PrevState
        (concreteKey 2)).indexBlock.block.entries.getLast?).map Prod.fst =
      some (concreteFuncs.sepF c2PrevState.dataBlock.curKey (concreteKey 2))) ∧
    (((closeStep concreteFuncs concreteConfig
        c2PrevState).indexBlock.block.entries.getLast?).map Prod.fst =
      some (concreteFuncs.succF c2PrevState.dataBlock.curKey)) :=
  ⟨by decide,
   (c7_index_entry_separator concreteFuncs concreteConfig c2PrevState
     (concreteKey 2) (by decide) (fun _ h => h) (by decide) (by decide)).1,
   (c7_index_entry_separator concreteFuncs concreteConfig c2PrevState
     (concreteKey 2) (by decide) (fun _ h => h) (by decide) (by decide)).2⟩

/-- C8 witness: five concrete point additions (which flush one index
partition) followed by Close yield two-level mode with two partitions. -/
theorem c8_two_level_iff_partitions_witness :
    (runOps concreteFuncs concreteConfig (concretePoints 5)).err = none ∧
    ((closeStep concreteFuncs concreteConfig
        (runOps concreteFuncs concreteConfig (concretePoints 5))).twoLevelIndex = true ↔
      2 ≤ (closeStep concreteFuncs concreteConfig
        (runOps concreteFuncs concreteConfig (concretePoints 5))).indexPartitions.length) :=
  ⟨by decide,
   c8_two_level_iff_partitions concreteFuncs concreteConfig (concretePoints 5)
     (fun _ h => h) (by decide)⟩

end Pebble
